import Mathlib

/-
  Verification development for the ozzy-post-core repository.

  The repository is a CSV-import analytics pipeline.  The definitions below are a
  shallow embedding of its source:
    - the header normalizer (function norm in the CSV importer component),
    - the numeric coercion (function toNumber),
    - the field suggester (suggestedHeaderForField),
    - the row mapper (mapCsvRow) and mapping validator (mappingCompleteness),
    - the CSV parse completion handler (handleFile),
    - the text feature / classifier logic and the server action saveImportedPosts
      together with recomputeAnalytics, modelled as pure state transitions over an
      explicit database state.

  JavaScript strings are modelled as Lean String values over their character
  lists; the ASCII fragment of the JS semantics (trim, toLowerCase, the regexes
  used by the source) is embedded explicitly.  JS numbers are modelled as
  rationals, with Option collapsing NaN and the infinities (the only consumer of
  the number parser filters non-finite values).  The database is an explicit
  record of tables; surrogate primary keys of posts are identified with the
  unique external post id that the source upserts on.
-/

/-- Whitespace test matching the JS regex class backslash-s and String.trim on the
ASCII fragment: space, tab, newline, carriage return, vertical tab, form feed. -/
def isWsChar (c : Char) : Bool :=
  c = ' ' || c = '\t' || c = '\n' || c = '\r' || c = '\x0b' || c = '\x0c'

/-- Word-character test matching the JS regex class backslash-w: ASCII letters,
digits and underscore. -/
def isWordChar (c : Char) : Bool :=
  (97 ≤ c.toNat && c.toNat ≤ 122) || (65 ≤ c.toNat && c.toNat ≤ 90) ||
    (48 ≤ c.toNat && c.toNat ≤ 57) || c = '_'

/-- Underscore-or-hyphen test matching the JS regex class underscore-hyphen. -/
def isUHChar (c : Char) : Bool :=
  c = '_' || c = '-'

/-- Uppercase ASCII letter test. -/
def isUpperChar (c : Char) : Bool :=
  65 ≤ c.toNat && c.toNat ≤ 90

/-- ASCII digit test. -/
def isDigitChar (c : Char) : Bool :=
  48 ≤ c.toNat && c.toNat ≤ 57

/-- ASCII fragment of JS String.toLowerCase on one character. -/
def lowerChar (c : Char) : Char :=
  if 65 ≤ c.toNat ∧ c.toNat ≤ 90 then Char.ofNat (c.toNat + 32) else c

/-- JS String.trim on a character list: drop whitespace from both ends. -/
def jsTrimList (l : List Char) : List Char :=
  ((l.dropWhile isWsChar).reverse.dropWhile isWsChar).reverse

/-- JS String.trim. -/
def jsTrimStr (s : String) : String :=
  ⟨jsTrimList s.toList⟩

/-- Replace every maximal run of characters satisfying p by a single space,
mirroring the JS replace of a one-or-more character class with a space.
The Boolean argument records whether the previous character was in a run. -/
def runsToSpaceAux (p : Char → Bool) : Bool → List Char → List Char
  | _, [] => []
  | prev, c :: t =>
    if p c then
      (if prev then runsToSpaceAux p true t else ' ' :: runsToSpaceAux p true t)
    else c :: runsToSpaceAux p false t

/-- Replace every maximal run of characters satisfying p by a single space. -/
def runsToSpace (p : Char → Bool) (l : List Char) : List Char :=
  runsToSpaceAux p false l

/-- Header normalizer pipeline on character lists, mirroring the source function
norm: trim, lowercase, collapse whitespace runs to one space, convert runs of
underscores and hyphens to one space, then strip every character that is not a
word character, whitespace, or a percent sign. -/
def listNorm (l : List Char) : List Char :=
  ((runsToSpace isUHChar
      (runsToSpace isWsChar ((jsTrimList l).map lowerChar))).filter
    (fun c => isWordChar c || isWsChar c || c = '%'))

/-- Header normalizer of the source (function norm). -/
def norm (s : String) : String :=
  ⟨listNorm s.toList⟩

/-- Tests whether the first list is an initial segment of the second. -/
def charsStartWith : List Char → List Char → Bool
  | [], _ => true
  | _ :: _, [] => false
  | a :: as, b :: bs => a == b && charsStartWith as bs

/-- Tests whether the second list occurs as a contiguous segment of the first,
mirroring JS String.includes. -/
def charsHaveSub : List Char → List Char → Bool
  | [], needle => needle.isEmpty
  | c :: t, needle => charsStartWith needle (c :: t) || charsHaveSub t needle

/-- JS String.includes: strIncludes s sub models s.includes(sub). -/
def strIncludes (s sub : String) : Bool :=
  charsHaveSub s.toList sub.toList

/-- ASCII fragment of JS String.toLowerCase. -/
def jsLower (s : String) : String :=
  ⟨s.toList.map lowerChar⟩

/-- Number of maximal whitespace runs in a character list; the Boolean records
whether the previous character was whitespace. -/
def wsRunsAux : Bool → List Char → Nat
  | _, [] => 0
  | prev, c :: t =>
    if isWsChar c then
      (if prev then wsRunsAux true t else 1 + wsRunsAux true t)
    else wsRunsAux false t

/-- Length of the array produced by the JS split of a string on a run of
whitespace: one more than the number of maximal whitespace runs (splitting the
empty string yields one empty token; leading or trailing whitespace contributes
an empty token as well). -/
def jsWordCount (s : String) : Nat :=
  1 + wsRunsAux false s.toList

/-- Number of occurrences of a character, mirroring the JS global-match count of
a single-character regex. -/
def countCharIn (s : String) (c : Char) : Nat :=
  s.toList.count c

/-- Numeric value of a list of ASCII digits in base ten. -/
def digitsToNat (ds : List Char) : Nat :=
  ds.foldl (fun a c => a * 10 + (c.toNat - 48)) 0

/-- Numeric value of a list of digits in the given base, used for the JS radix
literal prefixes; none if the list is empty or holds an invalid digit. -/
def radixDigitVal (c : Char) : Nat :=
  if 48 ≤ c.toNat ∧ c.toNat ≤ 57 then c.toNat - 48
  else if 97 ≤ c.toNat ∧ c.toNat ≤ 122 then c.toNat - 87
  else if 65 ≤ c.toNat ∧ c.toNat ≤ 90 then c.toNat - 55
  else 99

/-- Parse a non-empty all-valid digit list in the given base. -/
def parseRadixAll (base : Nat) (l : List Char) : Option Nat :=
  if l = [] then none
  else if l.all (fun c => radixDigitVal c < base) then
    some (l.foldl (fun a c => a * base + radixDigitVal c) 0)
  else none

/-- Ten to an integer power, as a rational. -/
def qpow10 (e : Int) : ℚ :=
  if 0 ≤ e then (10 : ℚ) ^ e.toNat else ((10 : ℚ) ^ (-e).toNat)⁻¹

/-- Rational value of an integer part and a fractional digit part. -/
def mkDec (ip fp : List Char) : ℚ :=
  (digitsToNat ip : ℚ) + (digitsToNat fp : ℚ) / (10 : ℚ) ^ fp.length

/-- Parse the exponent digits of a JS decimal literal after the letter e:
an optional sign followed by a non-empty digit run filling the rest. -/
def parseExpDigits (l : List Char) : Option Int :=
  match l with
  | '+' :: r => (parseRadixAll 10 r).map (fun n => (n : Int))
  | '-' :: r => (parseRadixAll 10 r).map (fun n => -(n : Int))
  | _ => (parseRadixAll 10 l).map (fun n => (n : Int))

/-- Parse an unsigned JS decimal literal (digits, optional point and fraction,
optional exponent) covering the whole list; none when the list is not a valid
literal.  The Infinity literal is not produced here: the only consumer filters
non-finite values, so it is collapsed into none. -/
def parseDecFull (l : List Char) : Option ℚ :=
  let ip := l.takeWhile isDigitChar
  let r1 := l.dropWhile isDigitChar
  match r1 with
  | [] => if ip = [] then none else some (digitsToNat ip : ℚ)
  | '.' :: r2 =>
    let fp := r2.takeWhile isDigitChar
    let r3 := r2.dropWhile isDigitChar
    if ip = [] ∧ fp = [] then none
    else
      match r3 with
      | [] => some (mkDec ip fp)
      | e :: r4 =>
        if e = 'e' ∨ e = 'E' then (parseExpDigits r4).map (fun ex => mkDec ip fp * qpow10 ex)
        else none
  | e :: r2 =>
    if e = 'e' ∨ e = 'E' then
      if ip = [] then none
      else (parseExpDigits r2).map (fun ex => (digitsToNat ip : ℚ) * qpow10 ex)
    else none

/-- JS ToNumber on a string, restricted to values on which the result is finite:
returns some q exactly when Number(s) is a finite number q, and none when it is
NaN or infinite.  Trims whitespace; the empty remainder is zero; radix-tagged
literals parse without a sign; otherwise an optionally signed decimal literal. -/
def jsNumberChars (l : List Char) : Option ℚ :=
  let t := jsTrimList l
  match t with
  | [] => some 0
  | '0' :: x :: rest =>
    if x = 'x' ∨ x = 'X' then (parseRadixAll 16 rest).map (fun n => (n : ℚ))
    else if x = 'o' ∨ x = 'O' then (parseRadixAll 8 rest).map (fun n => (n : ℚ))
    else if x = 'b' ∨ x = 'B' then (parseRadixAll 2 rest).map (fun n => (n : ℚ))
    else
      match t with
      | '+' :: r => parseDecFull r
      | '-' :: r => (parseDecFull r).map Neg.neg
      | _ => parseDecFull t
  | '+' :: r => parseDecFull r
  | '-' :: r => (parseDecFull r).map Neg.neg
  | _ => parseDecFull t

/-- Numeric coercion of the source (function toNumber) on its reachable inputs
(a string or null): null maps to null; the string is trimmed; an empty trim is
null; commas and percent signs are removed; the remainder goes through JS
ToNumber and a finiteness check. -/
def jsToNumber (raw : Option String) : Option ℚ :=
  match raw with
  | none => none
  | some v =>
    let s := jsTrimList v.toList
    if s = [] then none
    else jsNumberChars ((s.filter (fun c => !(c = ','))).filter (fun c => !(c = '%')))

example : jsToNumber (some "1,234") = some 1234 := by decide
example : jsToNumber (some "12.3%") = some (123 / 10) := by
  have h : jsToNumber (some "12.3%") =
      some (((12 : Nat) : ℚ) + ((3 : Nat) : ℚ) / (10 : ℚ) ^ (1 : Nat)) := rfl
  rw [h]; norm_num
example : jsToNumber (some "") = none := by decide
example : jsToNumber (some "abc") = none := by decide
example : norm " Created_At " = "created at" := by decide
example : norm "-" = " " := by decide
example : norm " " = "" := by decide

/-- The ten canonical import field keys of the source type ImportFieldKey. -/
inductive ImportFieldKey
  | postId | text | createdAt | likes | reposts | replies | quotes
  | impressions | engagementRate | clicks
deriving DecidableEq

/-- Synonym table of the field suggester, copied from the candidates record in
suggestedHeaderForField. -/
def candidates : ImportFieldKey → List String
  | .postId => ["post id", "postid", "id", "tweet id", "tweetid", "status id", "statusid"]
  | .text => ["text", "content", "body", "message", "post", "tweet text", "tweet"]
  | .createdAt => ["created at", "created", "timestamp", "time", "date", "datetime"]
  | .likes => ["likes", "like", "favorites", "favourites"]
  | .reposts => ["reposts", "repost", "retweets", "retweet", "shares", "share"]
  | .replies => ["replies", "reply", "comments", "comment"]
  | .quotes => ["quotes", "quote", "quote tweets", "quote tweet"]
  | .impressions => ["impressions", "impression", "views", "view"]
  | .engagementRate => ["engagement rate", "engagementrate", "er", "engagement %", "engagement percent"]
  | .clicks => ["clicks", "click", "link clicks", "url clicks"]

/-- Headers paired with their normalized forms, mirroring the nHeaders array. -/
def nHeadersOf (headers : List String) : List (String × String) :=
  headers.map (fun h => (h, norm h))

/-- Pass 1 of the suggester: for each synonym in listed order, the first header
whose normalized form equals it exactly; the raw header of the first hit. -/
def findExactHeader (nh : List (String × String)) : List String → Option String
  | [] => none
  | w :: ws =>
    match nh.find? (fun h => h.2 == w) with
    | some h => some h.1
    | none => findExactHeader nh ws

/-- Pass 2 of the suggester: for each synonym in listed order, the first header
whose normalized form contains the synonym or is contained in it. -/
def findContainsHeader (nh : List (String × String)) : List String → Option String
  | [] => none
  | w :: ws =>
    match nh.find? (fun h => strIncludes h.2 w || strIncludes w h.2) with
    | some h => some h.1
    | none => findContainsHeader nh ws

/-- Field suggester of the source (suggestedHeaderForField): exact normalized
match first, contains match as fallback, empty string when nothing matches. -/
def suggestedHeaderForField (field : ImportFieldKey) (headers : List String) : String :=
  let nh := nHeadersOf headers
  let wanted := (candidates field).map norm
  match findExactHeader nh wanted with
  | some r => r
  | none =>
    match findContainsHeader nh wanted with
    | some r => r
    | none => ""

/-- A user-confirmed mapping from each canonical field key to a chosen CSV
header, with the empty string as the ignore sentinel (source type ImportMapping). -/
structure ImportMapping where
  postId : String
  text : String
  createdAt : String
  likes : String
  reposts : String
  replies : String
  quotes : String
  impressions : String
  engagementRate : String
  clicks : String
deriving DecidableEq

/-- The all-ignored mapping of the source (emptyMapping). -/
def emptyMapping : ImportMapping :=
  ⟨"", "", "", "", "", "", "", "", "", ""⟩

/-- Projection of a mapping at a field key, mirroring the JS indexed access. -/
def mappingField (m : ImportMapping) : ImportFieldKey → String
  | .postId => m.postId
  | .text => m.text
  | .createdAt => m.createdAt
  | .likes => m.likes
  | .reposts => m.reposts
  | .replies => m.replies
  | .quotes => m.quotes
  | .impressions => m.impressions
  | .engagementRate => m.engagementRate
  | .clicks => m.clicks

/-- The values of a mapping in the JS object key order in which the mapping
object is built (the order of the emptyMapping literal). -/
def mappingValues (m : ImportMapping) : List String :=
  [m.postId, m.text, m.createdAt, m.likes, m.reposts, m.replies, m.quotes,
   m.impressions, m.engagementRate, m.clicks]

/-- Mapping validator of the source (the mappingCompleteness memo): the chosen
headers are the non-empty values; hasDuplicates compares the distinct count of
the chosen headers with their count; requiredOk asks the three required fields
to be non-empty.  The pair is (requiredOk, hasDuplicates). -/
def mappingCompleteness (m : ImportMapping) : Bool × Bool :=
  let chosen := (mappingValues m).filter (fun h => !(h = ""))
  let uniqueChosen := chosen.dedup.length
  let hasDuplicates := !(uniqueChosen = chosen.length)
  let requiredOk := !(m.postId = "") && !(m.text = "") && !(m.createdAt = "")
  (requiredOk, hasDuplicates)

/-- One parsed CSV row as a record from header names to cell strings, modelled
as an association list looked up on the first matching header. -/
def lookupCell (row : List (String × String)) (h : String) : Option String :=
  (row.find? (fun p => p.1 == h)).map (fun p => p.2)

/-- A mapped row as sent to the server action (source type ImportedPostRow).
Numbers are rationals; absent cells are none. -/
structure ImportedPostRow where
  postId : Option String
  text : Option String
  createdAt : Option String
  likes : Option ℚ
  reposts : Option ℚ
  replies : Option ℚ
  quotes : Option ℚ
  impressions : Option ℚ
  engagementRate : Option ℚ
  clicks : Option ℚ
deriving DecidableEq

/-- The per-field helper get of mapCsvRow: null when the mapping has no chosen
header; null when the header is absent from the row; otherwise the trimmed cell,
with the empty trim coerced to null. -/
def getMappedCell (row : List (String × String)) (m : ImportMapping)
    (k : ImportFieldKey) : Option String :=
  let h := mappingField m k
  if h = "" then none
  else
    match lookupCell row h with
    | none => none
    | some v =>
      let s := jsTrimStr v
      if s = "" then none else some s

/-- Row mapper of the source (mapCsvRow): string fields through get, numeric
fields through get then toNumber. -/
def mapCsvRow (row : List (String × String)) (m : ImportMapping) : ImportedPostRow :=
  { postId := getMappedCell row m .postId
    text := getMappedCell row m .text
    createdAt := getMappedCell row m .createdAt
    likes := jsToNumber (getMappedCell row m .likes)
    reposts := jsToNumber (getMappedCell row m .reposts)
    replies := jsToNumber (getMappedCell row m .replies)
    quotes := jsToNumber (getMappedCell row m .quotes)
    impressions := jsToNumber (getMappedCell row m .impressions)
    engagementRate := jsToNumber (getMappedCell row m .engagementRate)
    clicks := jsToNumber (getMappedCell row m .clicks) }

/-- Completion data handed to the handleFile callback by the CSV parsing
library: the reported error messages in order, the parsed records, and the
detected header fields when present. -/
structure PapaResult where
  errors : List String
  data : List (List (String × String))
  fields : Option (List String)
deriving DecidableEq

/-- Outcome of the handleFile completion logic: either a parse error message or
the detected headers, the kept rows, and the suggested initial mapping. -/
inductive ParseOutcome
  | failure (msg : String)
  | success (headers : List String) (rows : List (List (String × String)))
      (mapping : ImportMapping)
deriving DecidableEq

/-- Rows kept by handleFile: records with at least one key. -/
def keptRows (res : PapaResult) : List (List (String × String)) :=
  res.data.filter (fun r => !r.isEmpty)

/-- Headers detected by handleFile: the meta fields when present, else the keys
of the first kept row, with empty names filtered out. -/
def detectedHeaders (res : PapaResult) : List String :=
  (match res.fields with
   | some fs => fs
   | none => ((keptRows res).headD []).map Prod.fst).filter (fun h => !(h = ""))

/-- The initial mapping suggested over the detected headers, mirroring the loop
over EXPECTED_FIELDS. -/
def suggestMapping (headers : List String) : ImportMapping :=
  { postId := suggestedHeaderForField .postId headers
    text := suggestedHeaderForField .text headers
    createdAt := suggestedHeaderForField .createdAt headers
    likes := suggestedHeaderForField .likes headers
    reposts := suggestedHeaderForField .reposts headers
    replies := suggestedHeaderForField .replies headers
    quotes := suggestedHeaderForField .quotes headers
    impressions := suggestedHeaderForField .impressions headers
    engagementRate := suggestedHeaderForField .engagementRate headers
    clicks := suggestedHeaderForField .clicks headers }

/-- CSV parser adapter of the source (the complete callback of handleFile): any
reported error aborts with the first error message (with a fallback text);
otherwise zero detected headers is an error; otherwise success with the headers,
the kept rows and the suggested mapping. -/
def handleFile (res : PapaResult) : ParseOutcome :=
  match res.errors with
  | e :: _ => .failure e
  | [] =>
    let parsedHeaders := detectedHeaders res
    if parsedHeaders = [] then
      .failure "No headers detected. Ensure the first row contains column names."
    else .success parsedHeaders (keptRows res) (suggestMapping parsedHeaders)

example : suggestedHeaderForField .likes ["Favourites", "Likes"] = "Likes" := by decide
example : suggestedHeaderForField .likes ["My Likes Count"] = "My Likes Count" := by decide
example : suggestedHeaderForField .likes ["foo"] = "" := by decide
example : (mappingCompleteness ⟨"A", "A", "B", "", "", "", "", "", "", ""⟩).2 = true := by decide

/-- Heuristic format classifier of the source (the sequential reassignment
chain inside saveImportedPosts): the tag starts at standard and each later
matching rule overwrites the previous tag, so the last matching rule wins. -/
def classifyFormat (text : String) : String :=
  let lowerText := jsLower text
  let t0 := "standard"
  let t1 := if strIncludes lowerText "vs" || strIncludes lowerText "compared to" then "comparison" else t0
  let t2 := if strIncludes lowerText "milestone" || strIncludes lowerText "followers" then "milestone" else t1
  let t3 := if strIncludes text "?" then "question" else t2
  let t4 := if strIncludes lowerText "1." || strIncludes lowerText "- " then "list" else t3
  let t5 := if strIncludes lowerText "how to" || strIncludes lowerText "tip:" then "tip" else t4
  let t6 := if strIncludes lowerText "thread" then "story" else t5
  if strIncludes lowerText "click" || strIncludes lowerText "link in" then "cta" else t6

/-- The derived text features computed per row inside saveImportedPosts. -/
structure TextFeatures where
  char_count : Nat
  word_count : Nat
  has_link : Bool
  hashtag_count : Nat
  mention_count : Nat
  format_tag : String
deriving DecidableEq

/-- Text feature and classifier component: character count, whitespace-split
word count, literal http substring flag, raw hash and at character counts, and
the heuristic format tag. -/
def textFeatures (text : String) : TextFeatures :=
  { char_count := text.length
    word_count := jsWordCount text
    has_link := strIncludes text "http"
    hashtag_count := countCharIn text '#'
    mention_count := countCharIn text '@'
    format_tag := classifyFormat text }

/-- User table row (model of the prisma User rows this core touches). -/
structure UserRec where
  id : Nat
  username : String
  timezone : String
deriving DecidableEq

/-- Import table row. -/
structure ImportRec where
  id : Nat
  user_id : Nat
  filename : String
  row_count : Nat
  source_label : String
  imported_at : Int
deriving DecidableEq

/-- Post table row.  The surrogate primary key the source receives back from
the upsert is identified with the unique external key x_post_id. -/
structure PostRec where
  user_id : Nat
  x_post_id : String
  text : String
  created_at : Int
  char_count : Nat
  word_count : Nat
  has_link : Bool
  has_media : Bool
  hashtag_count : Nat
  mention_count : Nat
  format_tag : String
deriving DecidableEq

/-- MetricsSnapshot table row; post_id refers to a post by its external key. -/
structure SnapRec where
  post_id : String
  import_id : Nat
  captured_at : Int
  like_count : ℚ
  repost_count : ℚ
  reply_count : ℚ
  quote_count : ℚ
  impression_count : ℚ
  engagement_rate : ℚ
  clicks : ℚ
deriving DecidableEq

/-- Status enum of a recompute run. -/
inductive RunStatus
  | STARTED | SUCCESS | FAILED
deriving DecidableEq

/-- RecomputeRun audit table row. -/
structure RunRec where
  id : Nat
  status : RunStatus
  error_text : Option String
  started_at : Int
  ended_at : Option Int
deriving DecidableEq

/-- The database state: one field per table this core touches, plus fresh-id
counters standing for the id generation of the datastore. -/
structure Db where
  users : List UserRec
  imports : List ImportRec
  posts : List PostRec
  snapshots : List SnapRec
  recomputeRuns : List RunRec
  nextUserId : Nat
  nextImportId : Nat
  nextRunId : Nat
deriving DecidableEq

/-- The empty database. -/
def emptyDb : Db :=
  ⟨[], [], [], [], [], 0, 0, 0⟩

/-- Result of the recompute collaborator. -/
structure RecomputeResult where
  success : Bool
  runId : Option Nat
  error : Option String
deriving DecidableEq

/-- Recompute collaborator of the source (recomputeAnalytics): create a run in
status STARTED, then update it to SUCCESS, or — when the body throws, which the
failing flag models — catch, update it to FAILED with the error text, and
return a failure result instead of raising. -/
def recomputeAnalytics (failing : Bool) (errMsg : String) (now : Int) (db : Db) :
    Db × RecomputeResult :=
  let run : RunRec := ⟨db.nextRunId, .STARTED, none, now, none⟩
  let db1 : Db := { db with recomputeRuns := db.recomputeRuns ++ [run],
                            nextRunId := db.nextRunId + 1 }
  if failing then
    ({ db1 with recomputeRuns := db1.recomputeRuns.map (fun r =>
        if r.id == run.id then { r with status := .FAILED, error_text := some errMsg,
                                        ended_at := some now }
        else r) },
     ⟨false, none, some errMsg⟩)
  else
    ({ db1 with recomputeRuns := db1.recomputeRuns.map (fun r =>
        if r.id == run.id then { r with status := .SUCCESS, ended_at := some now }
        else r) },
     ⟨true, some run.id, none⟩)

/-- Idempotent upsert of the default user, keyed by the fixed username. -/
def upsertDefaultUser (db : Db) : Db × Nat :=
  match db.users.find? (fun u => u.username == "default") with
  | some u => (db, u.id)
  | none =>
    let u : UserRec := ⟨db.nextUserId, "default", "America/Chicago"⟩
    ({ db with users := db.users ++ [u], nextUserId := db.nextUserId + 1 }, u.id)

/-- The update branch of the post upsert: overwrite text, timestamp, derived
features and tag of the post with the matching external key; user_id, has_media
and the key itself are untouched. -/
def updatePostRec (x text : String) (createdAt : Int) (p : PostRec) : PostRec :=
  let f := textFeatures text
  if p.x_post_id == x then
    { p with text := text, created_at := createdAt, char_count := f.char_count,
             word_count := f.word_count, has_link := f.has_link,
             hashtag_count := f.hashtag_count, mention_count := f.mention_count,
             format_tag := f.format_tag }
  else p

/-- The create branch of the post upsert: a fresh post with has_media false. -/
def newPostRec (userId : Nat) (x text : String) (createdAt : Int) : PostRec :=
  let f := textFeatures text
  { user_id := userId, x_post_id := x, text := text,
    created_at := createdAt, char_count := f.char_count,
    word_count := f.word_count, has_link := f.has_link,
    has_media := false, hashtag_count := f.hashtag_count,
    mention_count := f.mention_count, format_tag := f.format_tag }

/-- Upsert of a post keyed by the external id: when a post with the key exists,
overwrite its text, timestamp, derived features and tag; otherwise create it
with has_media false. -/
def upsertPost (posts : List PostRec) (userId : Nat) (x text : String)
    (createdAt : Int) : List PostRec :=
  if posts.any (fun p => p.x_post_id == x) then
    posts.map (updatePostRec x text createdAt)
  else posts ++ [newPostRec userId x text createdAt]

/-- The snapshot accumulated for one accepted row: metrics default to zero when
absent; the captured time is the import record's timestamp. -/
def mkSnapshot (importId : Nat) (capturedAt : Int) (x : String)
    (row : ImportedPostRow) : SnapRec :=
  { post_id := x, import_id := importId, captured_at := capturedAt,
    like_count := row.likes.getD 0, repost_count := row.reposts.getD 0,
    reply_count := row.replies.getD 0, quote_count := row.quotes.getD 0,
    impression_count := row.impressions.getD 0,
    engagement_rate := row.engagementRate.getD 0, clicks := row.clicks.getD 0 }

/-- Per-row step of the import loop, mirroring the row callback inside the
batched Promise.all: skip when the trimmed postId is absent or empty, when
createdAt is absent or the empty string, or when the date parse (the parseDate
parameter models the JS Date constructor) yields no valid instant; otherwise
upsert the post and accumulate one snapshot.  Rows are processed in list order;
the source processes them in batches of fifty with unordered concurrency inside
a batch, which this sequential model serializes. -/
def processRow (parseDate : String → Option Int) (userId importId : Nat)
    (capturedAt : Int) (acc : List PostRec × List SnapRec) (row : ImportedPostRow) :
    List PostRec × List SnapRec :=
  match row.postId, row.createdAt with
  | some p, some c =>
    let x := jsTrimStr p
    if x = "" ∨ c = "" then acc
    else
      match parseDate c with
      | none => acc
      | some t_ =>
        (upsertPost acc.1 userId x (row.text.getD "") t_,
         acc.2 ++ [mkSnapshot importId capturedAt x row])
  | _, _ => acc

/-- The guard of the per-row step as a predicate: trimmed postId present and
non-empty, createdAt present, non-empty and parsing to a valid instant. -/
def rowAccepted (parseDate : String → Option Int) (row : ImportedPostRow) : Bool :=
  match row.postId, row.createdAt with
  | some p, some c => !(jsTrimStr p = "") && !(c = "") && (parseDate c).isSome
  | _, _ => false

/-- The stored filename: the submitted name unless it is null or empty (the JS
or-else fallback catches both), in which case a default name is used. -/
def saveFileName (fileName : Option String) : String :=
  match fileName with
  | some s => if s = "" then "import.csv" else s
  | none => "import.csv"

/-- Result of the import server action. -/
inductive SaveResult
  | ok (importId : Nat) (persistedCount : Nat)
  | err (msg : String)
deriving DecidableEq

/-- Import orchestrator of the source (server action saveImportedPosts): upsert
the default user, create the import record (with the filename falling back when
null or empty, and the submitted row count), process the rows accumulating
snapshots, bulk-insert the snapshots, run the recompute collaborator (whose
caught failure the failing flag models and whose result is ignored), and report
success with the import id.  The persisted-count component mirrors the final
log of the number of inserted snapshots.  The parseDate parameter models the JS
Date constructor; now models the clock backing the import timestamp. -/
def saveImportedPosts (parseDate : String → Option Int) (recomputeFailing : Bool)
    (recomputeErr : String) (now : Int) (fileName : Option String)
    (rows : List ImportedPostRow) (db : Db) : Db × SaveResult :=
  let ud := upsertDefaultUser db
  let db1 := ud.1
  let userId := ud.2
  let importRec : ImportRec :=
    { id := db1.nextImportId, user_id := userId,
      filename := saveFileName fileName,
      row_count := rows.length, source_label := "X Analytics Export",
      imported_at := now }
  let db2 : Db := { db1 with imports := db1.imports ++ [importRec],
                             nextImportId := db1.nextImportId + 1 }
  let folded := rows.foldl (processRow parseDate userId importRec.id importRec.imported_at)
    (db2.posts, [])
  let db3 : Db := { db2 with posts := folded.1,
                             snapshots := db2.snapshots ++ folded.2 }
  let db4 := (recomputeAnalytics recomputeFailing recomputeErr now db3).1
  (db4, .ok importRec.id folded.2.length)

example : classifyFormat "Check this thread on how to grow followers?" = "story" := by decide
example : classifyFormat "" = "standard" := by decide
example : jsWordCount "" = 1 := by decide
example : textFeatures "" = ⟨0, 1, false, 0, 0, "standard"⟩ := by decide

/-- C1: the format tag is decided by a last-match-wins chain (default standard,
then comparison, milestone, question, list, tip, story, cta in that order), so
any text containing a question mark and the word thread, with no cta phrase,
is tagged story in the end. -/
theorem classifyFormat_thread_story (t : String)
    (_hq : strIncludes t "?" = true)
    (hthread : strIncludes (jsLower t) "thread" = true)
    (hclick : strIncludes (jsLower t) "click" = false)
    (hlinkin : strIncludes (jsLower t) "link in" = false) :
    classifyFormat t = "story" := by
  unfold classifyFormat
  simp [hthread, hclick, hlinkin]

/-- C1 witness: the sample text from the specification is tagged story. -/
theorem classifyFormat_thread_story_witness :
    classifyFormat "Check this thread on how to grow followers?" = "story" :=
  classifyFormat_thread_story _ (by decide) (by decide) (by decide) (by decide)

/-- C4: requiredOk holds exactly when the three required fields have non-empty
chosen headers; hasDuplicates holds exactly when the distinct count of non-empty
chosen headers is below their count; the sample duplicate mapping is flagged;
the validator is a pure function of the mapping. -/
theorem mappingCompleteness_spec (m : ImportMapping) :
    ((mappingCompleteness m).1 = true ↔
      (m.postId ≠ "" ∧ m.text ≠ "" ∧ m.createdAt ≠ "")) ∧
    ((mappingCompleteness m).2 = true ↔
      ((mappingValues m).filter (fun h => !(h = ""))).dedup.length <
        ((mappingValues m).filter (fun h => !(h = ""))).length) ∧
    (mappingCompleteness ⟨"A", "A", "B", "", "", "", "", "", "", ""⟩).2 = true := by
  refine ⟨?_, ?_, by decide⟩
  · simp [mappingCompleteness, and_assoc]
  · have hle : ((mappingValues m).filter (fun h => !(h = ""))).dedup.length ≤
        ((mappingValues m).filter (fun h => !(h = ""))).length :=
      (List.dedup_sublist _).length_le
    constructor
    · intro h
      have hne : ¬ (((mappingValues m).filter (fun h => !(h = ""))).dedup.length =
          ((mappingValues m).filter (fun h => !(h = ""))).length) := by
        simpa [mappingCompleteness] using h
      omega
    · intro h
      simp [mappingCompleteness]
      omega

/-- C8: any reported parse error aborts the whole parse with the first error
message and no partial rows; zero detected headers is an error of its own;
headers with zero data rows succeed with an empty row sequence. -/
theorem handleFile_spec (res : PapaResult) :
    (∀ e es, res.errors = e :: es → handleFile res = .failure e) ∧
    (res.errors = [] → detectedHeaders res = [] →
      handleFile res =
        .failure "No headers detected. Ensure the first row contains column names.") ∧
    (res.errors = [] → res.data = [] → detectedHeaders res ≠ [] →
      handleFile res =
        .success (detectedHeaders res) [] (suggestMapping (detectedHeaders res))) := by
  refine ⟨?_, ?_, ?_⟩
  · intro e es h
    simp [handleFile, h]
  · intro h1 h2
    simp [handleFile, h1, h2]
  · intro h1 h2 h3
    simp [handleFile, h1, h3, keptRows, h2]

/-- C8 witness: a reported error surfaces as that error; a headers-only result
with no data rows succeeds with no rows. -/
theorem handleFile_spec_witness :
    handleFile ⟨["Quoted field unterminated"], [], some ["A"]⟩ =
      .failure "Quoted field unterminated" ∧
    handleFile ⟨[], [], some ["A"]⟩ = .success ["A"] [] (suggestMapping ["A"]) :=
  ⟨(handleFile_spec _).1 "Quoted field unterminated" [] rfl,
   (handleFile_spec _).2.2 rfl rfl (by decide)⟩

/-- A raw header returned by pass 1 of the suggester is one of the input headers. -/
theorem findExactHeader_mem {hs : List String} {ws : List String} {r : String}
    (h : findExactHeader (nHeadersOf hs) ws = some r) : r ∈ hs := by
  induction ws with
  | nil => simp [findExactHeader] at h
  | cons w ws ih =>
    rw [findExactHeader] at h
    cases hf : (nHeadersOf hs).find? (fun p => p.2 == w) with
    | none =>
      rw [hf] at h
      exact ih h
    | some p =>
      rw [hf] at h
      have hmem := List.mem_of_find?_eq_some hf
      simp only [nHeadersOf, List.mem_map] at hmem
      obtain ⟨a, ha, hap⟩ := hmem
      cases h
      rw [← hap]
      exact ha

/-- A raw header returned by pass 2 of the suggester is one of the input headers. -/
theorem findContainsHeader_mem {hs : List String} {ws : List String} {r : String}
    (h : findContainsHeader (nHeadersOf hs) ws = some r) : r ∈ hs := by
  induction ws with
  | nil => simp [findContainsHeader] at h
  | cons w ws ih =>
    rw [findContainsHeader] at h
    cases hf : (nHeadersOf hs).find? (fun p => strIncludes p.2 w || strIncludes w p.2) with
    | none =>
      rw [hf] at h
      exact ih h
    | some p =>
      rw [hf] at h
      have hmem := List.mem_of_find?_eq_some hf
      simp only [nHeadersOf, List.mem_map] at hmem
      obtain ⟨a, ha, hap⟩ := hmem
      cases h
      rw [← hap]
      exact ha

/-- C5: the field suggester returns a header drawn from the input list or the
empty sentinel; the result is the pass-1 exact match when one exists, the
pass-2 contains match when pass 1 finds nothing, and empty when both passes
fail; both passes iterate synonyms in listed order before header order, so an
exact match on a later header through an earlier synonym beats an earlier
header (the two closing sample facts exercise each pass). -/
theorem suggestedHeaderForField_spec (f : ImportFieldKey) (headers : List String) :
    (suggestedHeaderForField f headers ∈ headers ∨
      suggestedHeaderForField f headers = "") ∧
    (∀ r, findExactHeader (nHeadersOf headers) ((candidates f).map norm) = some r →
      suggestedHeaderForField f headers = r) ∧
    (findExactHeader (nHeadersOf headers) ((candidates f).map norm) = none →
      ∀ r, findContainsHeader (nHeadersOf headers) ((candidates f).map norm) = some r →
        suggestedHeaderForField f headers = r) ∧
    (findExactHeader (nHeadersOf headers) ((candidates f).map norm) = none →
      findContainsHeader (nHeadersOf headers) ((candidates f).map norm) = none →
      suggestedHeaderForField f headers = "") ∧
    suggestedHeaderForField .likes ["Favourites", "Likes"] = "Likes" ∧
    suggestedHeaderForField .likes ["My Likes Count"] = "My Likes Count" := by
  refine ⟨?_, ?_, ?_, ?_, by decide, by decide⟩
  · unfold suggestedHeaderForField
    cases he : findExactHeader (nHeadersOf headers) ((candidates f).map norm) with
    | some r =>
      simp only [he]
      exact Or.inl (findExactHeader_mem he)
    | none =>
      simp only [he]
      cases hc : findContainsHeader (nHeadersOf headers) ((candidates f).map norm) with
      | some r =>
        simp only [hc]
        exact Or.inl (findContainsHeader_mem hc)
      | none =>
        simp [hc]
  · intro r hr
    unfold suggestedHeaderForField
    simp only [hr]
  · intro he r hr
    unfold suggestedHeaderForField
    simp only [he, hr]
  · intro he hc
    unfold suggestedHeaderForField
    simp only [he, hc]

/-- C5 witness: pass 1 finds the exact synonym match and the suggester returns
it, on a concrete header list where synonym order beats header order. -/
theorem suggestedHeaderForField_spec_witness :
    findExactHeader (nHeadersOf ["Favourites", "Likes"])
        ((candidates .likes).map norm) = some "Likes" ∧
    suggestedHeaderForField .likes ["Favourites", "Likes"] = "Likes" :=
  ⟨by decide,
   (suggestedHeaderForField_spec .likes ["Favourites", "Likes"]).2.1 "Likes" (by decide)⟩

/-- C6: the row mapper is a total function (it is defined for every raw row and
mapping and has no failure path); a field whose mapping has no chosen header or
whose cell is missing or blank is null; a present cell is trimmed, with the
empty trim coerced to null; numeric fields run the coercion that strips commas
and percent signs and parses a decimal number, sending the four sample inputs
to 1234, 12.3, null and null. -/
theorem mapCsvRow_spec (row : List (String × String)) (m : ImportMapping)
    (k : ImportFieldKey) :
    (mappingField m k = "" → getMappedCell row m k = none) ∧
    (lookupCell row (mappingField m k) = none → getMappedCell row m k = none) ∧
    (∀ v, lookupCell row (mappingField m k) = some v → jsTrimStr v = "" →
      getMappedCell row m k = none) ∧
    (∀ v, lookupCell row (mappingField m k) = some v → mappingField m k ≠ "" →
      jsTrimStr v ≠ "" → getMappedCell row m k = some (jsTrimStr v)) ∧
    (mapCsvRow row m).text = getMappedCell row m .text ∧
    (mapCsvRow row m).likes = jsToNumber (getMappedCell row m .likes) ∧
    jsToNumber (some "1,234") = some 1234 ∧
    jsToNumber (some "12.3%") = some (123 / 10) ∧
    jsToNumber (some "") = none ∧
    jsToNumber (some "abc") = none := by
  refine ⟨?_, ?_, ?_, ?_, rfl, rfl, by decide, ?_, by decide, by decide⟩
  · intro h
    simp [getMappedCell, h]
  · intro h
    by_cases hm : mappingField m k = ""
    · simp [getMappedCell, hm]
    · simp [getMappedCell, hm, h]
  · intro v hv ht
    by_cases hm : mappingField m k = ""
    · simp [getMappedCell, hm]
    · simp [getMappedCell, hm, hv, ht]
  · intro v hv hm ht
    simp [getMappedCell, hm, hv, ht]
  · have h : jsToNumber (some "12.3%") =
        some (((12 : Nat) : ℚ) + ((3 : Nat) : ℚ) / (10 : ℚ) ^ (1 : Nat)) := rfl
    rw [h]; norm_num

/-- C6 witness: on the all-ignored mapping every field of the mapped row is
null, through the no-chosen-header clause. -/
theorem mapCsvRow_spec_witness :
    mappingField emptyMapping ImportFieldKey.postId = "" ∧
    getMappedCell [("A", "x")] emptyMapping ImportFieldKey.postId = none :=
  ⟨rfl, (mapCsvRow_spec [("A", "x")] emptyMapping ImportFieldKey.postId).1 rfl⟩

/-- Characters of a run-collapsed list are the space or non-run characters of
the input. -/
theorem mem_runsToSpaceAux {p : Char → Bool} {b : Bool} {l : List Char} {c : Char}
    (h : c ∈ runsToSpaceAux p b l) : c = ' ' ∨ (c ∈ l ∧ p c = false) := by
  induction l generalizing b with
  | nil => simp [runsToSpaceAux] at h
  | cons a t ih =>
    have hdef : runsToSpaceAux p b (a :: t) =
        if p a then (if b then runsToSpaceAux p true t
                     else ' ' :: runsToSpaceAux p true t)
        else a :: runsToSpaceAux p false t := rfl
    rw [hdef] at h
    by_cases hp : p a = true
    · rw [if_pos hp] at h
      cases b with
      | true =>
        rw [if_pos rfl] at h
        rcases ih h with h1 | ⟨h1, h2⟩
        · exact Or.inl h1
        · exact Or.inr ⟨List.mem_cons_of_mem _ h1, h2⟩
      | false =>
        rw [if_neg (by simp)] at h
        rcases List.mem_cons.mp h with h1 | h1
        · exact Or.inl h1
        · rcases ih h1 with h2 | ⟨h2, h3⟩
          · exact Or.inl h2
          · exact Or.inr ⟨List.mem_cons_of_mem _ h2, h3⟩
    · rw [if_neg hp] at h
      rcases List.mem_cons.mp h with h1 | h1
      · subst h1
        exact Or.inr ⟨List.mem_cons_self _ _, by simpa using hp⟩
      · rcases ih h1 with h2 | ⟨h2, h3⟩
        · exact Or.inl h2
        · exact Or.inr ⟨List.mem_cons_of_mem _ h2, h3⟩

/-- Run collapsing is the identity on lists with no run characters. -/
theorem runsToSpaceAux_eq_self {p : Char → Bool} {l : List Char}
    (h : ∀ c ∈ l, p c = false) : ∀ b, runsToSpaceAux p b l = l := by
  induction l with
  | nil => intro b; rfl
  | cons a t ih =>
    intro b
    have ha : p a = false := h a (List.mem_cons_self _ _)
    have hdef : runsToSpaceAux p b (a :: t) =
        if p a then (if b then runsToSpaceAux p true t
                     else ' ' :: runsToSpaceAux p true t)
        else a :: runsToSpaceAux p false t := rfl
    rw [hdef, if_neg (by simp [ha])]
    rw [ih (fun c hc => h c (List.mem_cons_of_mem _ hc))]

/-- Characters of a trimmed list come from the input. -/
theorem mem_jsTrimList {l : List Char} {c : Char} (h : c ∈ jsTrimList l) : c ∈ l := by
  unfold jsTrimList at h
  rw [List.mem_reverse] at h
  have h1 := (List.dropWhile_sublist _).mem h
  rw [List.mem_reverse] at h1
  exact (List.dropWhile_sublist _).mem h1

/-- Lowercasing never produces an uppercase ASCII letter. -/
theorem lowerChar_not_upper (a : Char) : isUpperChar (lowerChar a) = false := by
  unfold lowerChar isUpperChar
  by_cases h : 65 ≤ a.toNat ∧ a.toNat ≤ 90
  · rw [if_pos h]
    have hv : (a.toNat + 32).isValidChar := Or.inl (by omega)
    have ht : (Char.ofNat (a.toNat + 32)).toNat = a.toNat + 32 := by
      unfold Char.ofNat
      rw [dif_pos hv]
      rfl
    rw [ht]
    simp
    omega
  · rw [if_neg h]
    simp
    omega

/-- Lowercasing is the identity on lists with no uppercase ASCII letter. -/
theorem map_lowerChar_eq_self {l : List Char} (h : ∀ c ∈ l, isUpperChar c = false) :
    l.map lowerChar = l := by
  have h' : ∀ c ∈ l, lowerChar c = c := by
    intro c hc
    have hc' := h c hc
    unfold isUpperChar at hc'
    simp at hc'
    unfold lowerChar
    rw [if_neg]
    omega
  exact (List.map_congr_left h').trans (List.map_id l)

/-- Character classes of the normalizer output: every character passes the
keep-filter, is not an underscore or hyphen, is a plain space whenever it is
whitespace, and is not an uppercase ASCII letter. -/
theorem listNorm_chars {l : List Char} {c : Char} (h : c ∈ listNorm l) :
    (isWordChar c || isWsChar c || c = '%') = true ∧ isUHChar c = false ∧
    (isWsChar c = true → c = ' ') ∧ isUpperChar c = false := by
  unfold listNorm at h
  have hpred := List.of_mem_filter h
  have hU : c ∈ runsToSpace isUHChar
      (runsToSpace isWsChar ((jsTrimList l).map lowerChar)) := (List.mem_filter.mp h).1
  rcases mem_runsToSpaceAux hU with hsp | ⟨hW, hUH⟩
  · subst hsp
    exact ⟨by decide, by decide, fun _ => rfl, by decide⟩
  · rcases mem_runsToSpaceAux hW with hsp | ⟨hmap, hws⟩
    · subst hsp
      exact ⟨by decide, by decide, fun _ => rfl, by decide⟩
    · rcases List.mem_map.mp hmap with ⟨a, _, rfl⟩
      exact ⟨hpred, hUH, fun hcon => absurd hcon (by simp [hws]), lowerChar_not_upper a⟩

/-- On a list that already has the character classes of normalizer output, the
normalizer reduces to a trim followed by a whitespace-run collapse. -/
theorem listNorm_of_normalized {t : List Char}
    (h1 : ∀ c ∈ t, (isWordChar c || isWsChar c || c = '%') = true)
    (h2 : ∀ c ∈ t, isUHChar c = false)
    (h3 : ∀ c ∈ t, isUpperChar c = false) :
    listNorm t = runsToSpace isWsChar (jsTrimList t) := by
  unfold listNorm
  rw [map_lowerChar_eq_self (fun c hc => h3 c (mem_jsTrimList hc))]
  have hW : ∀ c ∈ runsToSpace isWsChar (jsTrimList t), isUHChar c = false := by
    intro c hc
    rcases mem_runsToSpaceAux hc with hsp | ⟨hmem, _⟩
    · subst hsp; decide
    · exact h2 c (mem_jsTrimList hmem)
  rw [show runsToSpace isUHChar (runsToSpace isWsChar (jsTrimList t)) =
      runsToSpace isWsChar (jsTrimList t) from runsToSpaceAux_eq_self hW false]
  apply List.filter_eq_self.mpr
  intro c hc
  rcases mem_runsToSpaceAux hc with hsp | ⟨hmem, _⟩
  · subst hsp; decide
  · exact h1 c (mem_jsTrimList hmem)

/-- C7 counterexample: the header normalizer is not idempotent.  A lone hyphen
normalizes to a single space (the hyphen is converted after trimming), and
normalizing that space again gives the empty string. -/
theorem norm_not_idempotent : norm (norm "-") ≠ norm "-" := by decide

/-- C7 as amended: normalizing twice equals trimming and collapsing whitespace
runs of the once-normalized string (full idempotence fails because a converted
underscore or hyphen can leave a leading, trailing or doubled space), and the
output is lowercase with every character a lowercase letter, digit, space or
percent sign — underscores and hyphens are converted and other punctuation is
stripped. -/
theorem norm_norm_eq (s : String) :
    norm (norm s) = ⟨runsToSpace isWsChar (jsTrimList (norm s).toList)⟩ ∧
    (∀ c ∈ (norm s).toList,
      ((97 ≤ c.toNat && c.toNat ≤ 122) || (48 ≤ c.toNat && c.toNat ≤ 57) ||
        c = ' ' || c = '%') = true) := by
  have hchars : ∀ c ∈ listNorm s.toList,
      (isWordChar c || isWsChar c || c = '%') = true ∧ isUHChar c = false ∧
      (isWsChar c = true → c = ' ') ∧ isUpperChar c = false :=
    fun c hc => listNorm_chars hc
  constructor
  · show (⟨listNorm (listNorm s.toList)⟩ : String) = _
    congr 1
    exact listNorm_of_normalized (fun c hc => (hchars c hc).1)
      (fun c hc => (hchars c hc).2.1) (fun c hc => (hchars c hc).2.2.2)
  · intro c hc
    obtain ⟨hp, hu, hw, hup⟩ := hchars c hc
    by_cases hws : isWsChar c = true
    · have hsp := hw hws
      subst hsp
      decide
    · by_cases hpct : c = '%'
      · subst hpct
        decide
      · have hws' : isWsChar c = false := by simpa using hws
        have hword : isWordChar c = true := by
          rw [Bool.or_eq_true, Bool.or_eq_true] at hp
          rcases hp with (h3 | h4) | h2
          · exact h3
          · exact absurd h4 (by simp [hws'])
          · exact absurd h2 (by simp [hpct])
        have hu1 : ¬(c = '_') := by
          intro hcon
          rw [hcon] at hu
          simp [isUHChar] at hu
        have hup1 : ¬(65 ≤ c.toNat ∧ c.toNat ≤ 90) := by
          intro hcon
          have : isUpperChar c = true := by
            simp [isUpperChar, hcon.1, hcon.2]
          rw [this] at hup
          exact absurd hup (by decide)
        have hword' := hword
        simp only [isWordChar, Bool.or_eq_true, Bool.and_eq_true,
          decide_eq_true_eq] at hword'
        simp only [Bool.or_eq_true, Bool.and_eq_true, decide_eq_true_eq]
        rcases hword' with ((hl | hupp) | hd) | hun
        · exact Or.inl (Or.inl (Or.inl hl))
        · exact absurd hupp hup1
        · exact Or.inl (Or.inl (Or.inr hd))
        · exact absurd hun hu1

/-- The external key a row is upserted on: the trimmed postId. -/
def rowX (row : ImportedPostRow) : String :=
  jsTrimStr (row.postId.getD "")

/-- The parsed creation instant of an accepted row. -/
def rowDate (parseDate : String → Option Int) (row : ImportedPostRow) : Int :=
  (row.createdAt.bind parseDate).getD 0

/-- The posts component of the per-row step. -/
def postsStep (parseDate : String → Option Int) (userId : Nat)
    (ps : List PostRec) (row : ImportedPostRow) : List PostRec :=
  if rowAccepted parseDate row then
    upsertPost ps userId (rowX row) (row.text.getD "") (rowDate parseDate row)
  else ps

/-- The per-row step either skips in full or upserts and snapshots, according
to the acceptance guard. -/
theorem processRow_eq (pd : String → Option Int) (uid iid : Nat) (cap : Int)
    (acc : List PostRec × List SnapRec) (row : ImportedPostRow) :
    processRow pd uid iid cap acc row =
      if rowAccepted pd row then
        (upsertPost acc.1 uid (rowX row) (row.text.getD "") (rowDate pd row),
         acc.2 ++ [mkSnapshot iid cap (rowX row) row])
      else acc := by
  unfold processRow rowAccepted rowX rowDate
  cases hpId : row.postId with
  | none => simp
  | some p =>
    cases hcA : row.createdAt with
    | none => simp
    | some c =>
      simp only [Option.getD_some, Option.some_bind]
      by_cases h1 : jsTrimStr p = ""
      · simp [h1]
      · by_cases h2 : c = ""
        · simp [h1, h2]
        · cases hpd : pd c with
          | none => simp [h1, h2, hpd]
          | some t_ => simp [h1, h2, hpd]

/-- Folding the per-row step decomposes into the posts fold and the snapshot
list of the accepted rows in order. -/
theorem foldl_processRow (pd : String → Option Int) (uid iid : Nat) (cap : Int)
    (rows : List ImportedPostRow) :
    ∀ (posts : List PostRec) (snaps : List SnapRec),
      rows.foldl (processRow pd uid iid cap) (posts, snaps) =
        (rows.foldl (postsStep pd uid) posts,
         snaps ++ (rows.filter (rowAccepted pd)).map
           (fun r => mkSnapshot iid cap (rowX r) r)) := by
  induction rows with
  | nil =>
    intro posts snaps
    simp
  | cons r rows ih =>
    intro posts snaps
    rw [List.foldl_cons, List.foldl_cons, processRow_eq]
    by_cases hr : rowAccepted pd r = true
    · rw [if_pos hr, ih]
      simp [postsStep, hr, List.filter_cons]
    · rw [if_neg hr, ih]
      simp only [postsStep]
      rw [if_neg hr]
      have : rowAccepted pd r = false := by simpa using hr
      simp [List.filter_cons, this]

/-- The user upsert leaves the imports table unchanged. -/
theorem uu_imports (db : Db) : (upsertDefaultUser db).1.imports = db.imports := by
  unfold upsertDefaultUser
  cases db.users.find? (fun u => u.username == "default") <;> simp

/-- The user upsert leaves the posts table unchanged. -/
theorem uu_posts (db : Db) : (upsertDefaultUser db).1.posts = db.posts := by
  unfold upsertDefaultUser
  cases db.users.find? (fun u => u.username == "default") <;> simp

/-- The user upsert leaves the snapshot table unchanged. -/
theorem uu_snapshots (db : Db) : (upsertDefaultUser db).1.snapshots = db.snapshots := by
  unfold upsertDefaultUser
  cases db.users.find? (fun u => u.username == "default") <;> simp

/-- The user upsert leaves the audit log unchanged. -/
theorem uu_recomputeRuns (db : Db) :
    (upsertDefaultUser db).1.recomputeRuns = db.recomputeRuns := by
  unfold upsertDefaultUser
  cases db.users.find? (fun u => u.username == "default") <;> simp

/-- The user upsert leaves the import id counter unchanged. -/
theorem uu_nextImportId (db : Db) :
    (upsertDefaultUser db).1.nextImportId = db.nextImportId := by
  unfold upsertDefaultUser
  cases db.users.find? (fun u => u.username == "default") <;> simp

/-- The user upsert leaves the run id counter unchanged. -/
theorem uu_nextRunId (db : Db) :
    (upsertDefaultUser db).1.nextRunId = db.nextRunId := by
  unfold upsertDefaultUser
  cases db.users.find? (fun u => u.username == "default") <;> simp

/-- The recompute collaborator leaves the posts table unchanged. -/
theorem recompute_posts (f : Bool) (e : String) (now : Int) (db : Db) :
    (recomputeAnalytics f e now db).1.posts = db.posts := by
  unfold recomputeAnalytics
  cases f <;> simp

/-- The recompute collaborator leaves the snapshot table unchanged. -/
theorem recompute_snapshots (f : Bool) (e : String) (now : Int) (db : Db) :
    (recomputeAnalytics f e now db).1.snapshots = db.snapshots := by
  unfold recomputeAnalytics
  cases f <;> simp

/-- The recompute collaborator leaves the imports table unchanged. -/
theorem recompute_imports (f : Bool) (e : String) (now : Int) (db : Db) :
    (recomputeAnalytics f e now db).1.imports = db.imports := by
  unfold recomputeAnalytics
  cases f <;> simp

/-- Explicit form of the import orchestrator output on the tables the claims
consult: the posts fold, the appended snapshots of accepted rows, the
appended import record, and the success result carrying the new import id and
the persisted-snapshot count. -/
theorem saveImportedPosts_components (pd : String → Option Int) (rf : Bool)
    (re : String) (now : Int) (fn : Option String) (rows : List ImportedPostRow)
    (db : Db) :
    (saveImportedPosts pd rf re now fn rows db).1.posts =
      rows.foldl (postsStep pd (upsertDefaultUser db).2) db.posts ∧
    (saveImportedPosts pd rf re now fn rows db).1.snapshots =
      db.snapshots ++ (rows.filter (rowAccepted pd)).map
        (fun r => mkSnapshot db.nextImportId now (rowX r) r) ∧
    (saveImportedPosts pd rf re now fn rows db).1.imports =
      db.imports ++ [⟨db.nextImportId, (upsertDefaultUser db).2, saveFileName fn,
        rows.length, "X Analytics Export", now⟩] ∧
    (saveImportedPosts pd rf re now fn rows db).2 =
      .ok db.nextImportId ((rows.filter (rowAccepted pd)).length) := by
  simp only [saveImportedPosts]
  rw [foldl_processRow]
  refine ⟨?_, ?_, ?_, ?_⟩
  · rw [recompute_posts]
    simp [uu_posts]
  · rw [recompute_snapshots]
    simp [uu_snapshots, uu_nextImportId]
  · rw [recompute_imports]
    simp [uu_imports, uu_nextImportId]
  · simp [uu_nextImportId]

/-- When no post carries the key, the upsert appends a fresh post. -/
theorem upsertPost_of_not_mem (posts : List PostRec) (uid : Nat) (x text : String)
    (t : Int) (h : ∀ q ∈ posts, q.x_post_id ≠ x) :
    upsertPost posts uid x text t = posts ++ [newPostRec uid x text t] := by
  unfold upsertPost
  rw [if_neg]
  intro hcon
  simp only [List.any_eq_true, beq_iff_eq] at hcon
  obtain ⟨q, hq, he⟩ := hcon
  exact h q hq he

/-- When a post carries the key, the upsert maps the update over the table. -/
theorem upsertPost_of_mem (posts : List PostRec) (uid : Nat) (x text : String)
    (t : Int) (h : ∃ q ∈ posts, q.x_post_id = x) :
    upsertPost posts uid x text t = posts.map (updatePostRec x text t) := by
  unfold upsertPost
  rw [if_pos]
  simp only [List.any_eq_true, beq_iff_eq]
  exact h

/-- The update branch never changes the external key. -/
theorem updatePostRec_key (x text : String) (t : Int) (q : PostRec) :
    (updatePostRec x text t q).x_post_id = q.x_post_id := by
  unfold updatePostRec
  by_cases h : (q.x_post_id == x) = true <;> simp [h]

/-- The update branch leaves a non-matching post unchanged. -/
theorem updatePostRec_of_ne (x text : String) (t : Int) (q : PostRec)
    (h : q.x_post_id ≠ x) : updatePostRec x text t q = q := by
  unfold updatePostRec
  rw [if_neg (by simpa using h)]

/-- Field values of the update branch on a matching post. -/
theorem updatePostRec_fields (x text : String) (t : Int) (q : PostRec)
    (h : q.x_post_id = x) :
    (updatePostRec x text t q).text = text ∧
    (updatePostRec x text t q).created_at = t ∧
    (updatePostRec x text t q).char_count = (textFeatures text).char_count ∧
    (updatePostRec x text t q).word_count = (textFeatures text).word_count ∧
    (updatePostRec x text t q).has_link = (textFeatures text).has_link ∧
    (updatePostRec x text t q).hashtag_count = (textFeatures text).hashtag_count ∧
    (updatePostRec x text t q).mention_count = (textFeatures text).mention_count ∧
    (updatePostRec x text t q).format_tag = (textFeatures text).format_tag := by
  unfold updatePostRec
  simp [h]

/-- The acceptance condition as the specification states it: postId present,
createdAt present and parsing to a valid instant. -/
def claimAccept (parseDate : String → Option Int) (row : ImportedPostRow) : Bool :=
  row.postId.isSome &&
    (match row.createdAt with
     | some c => (parseDate c).isSome
     | none => false)

/-- On well-formed mapped rows (present string fields already trimmed non-empty,
which is what the row mapper guarantees), the code guard coincides with the
specification acceptance condition. -/
theorem rowAccepted_eq_claimAccept (pd : String → Option Int)
    (row : ImportedPostRow)
    (h1 : ∀ p, row.postId = some p → jsTrimStr p ≠ "")
    (h2 : ∀ c, row.createdAt = some c → c ≠ "") :
    rowAccepted pd row = claimAccept pd row := by
  unfold rowAccepted claimAccept
  cases hp : row.postId with
  | none => simp
  | some p =>
    cases hc : row.createdAt with
    | none => simp
    | some c =>
      have hk := h1 p hp
      have he := h2 c hc
      simp [hk, he]

/-- C2: the orchestrator silently skips each submitted mapped row whose postId
or createdAt is absent or whose createdAt fails to parse as a valid instant,
and persists exactly one MetricsSnapshot per accepted row — the snapshot table
grows by exactly the accepted snapshots in order, and the reported count is the
number of accepted rows. -/
theorem saveImportedPosts_skip_count (pd : String → Option Int) (rf : Bool)
    (re : String) (now : Int) (fn : Option String) (rows : List ImportedPostRow)
    (db : Db)
    (hwf : ∀ r ∈ rows, (∀ p, r.postId = some p → jsTrimStr p ≠ "") ∧
                       (∀ c, r.createdAt = some c → c ≠ "")) :
    (saveImportedPosts pd rf re now fn rows db).1.snapshots =
      db.snapshots ++ (rows.filter (claimAccept pd)).map
        (fun r => mkSnapshot db.nextImportId now (rowX r) r) ∧
    (saveImportedPosts pd rf re now fn rows db).2 =
      .ok db.nextImportId ((rows.filter (claimAccept pd)).length) ∧
    (saveImportedPosts pd rf re now fn rows db).1.snapshots.length =
      db.snapshots.length + (rows.filter (claimAccept pd)).length := by
  have hcong : rows.filter (rowAccepted pd) = rows.filter (claimAccept pd) :=
    List.filter_congr (fun r hr =>
      rowAccepted_eq_claimAccept pd r (hwf r hr).1 (hwf r hr).2)
  obtain ⟨_, hs, _, hres⟩ := saveImportedPosts_components pd rf re now fn rows db
  refine ⟨by rw [hs, hcong], by rw [hres, hcong], ?_⟩
  rw [hs, hcong]
  simp

/-- Concrete date parser for the sample imports. -/
def pd0 : String → Option Int :=
  fun s => if s = "d1" then some 100 else if s = "d2" then some 200 else none

/-- Sample rows for the concrete import scenarios. -/
def rowA : ImportedPostRow :=
  ⟨some "p1", some "hello world", some "d1", some 5, none, none, none, none, none, none⟩

/-- A re-import of the same external post with new text and metrics. -/
def rowA2 : ImportedPostRow :=
  ⟨some "p1", some "updated thread?", some "d2", some 7, none, none, none, none, none, none⟩

/-- A second distinct sample post. -/
def rowB : ImportedPostRow :=
  ⟨some "p2", some "second", some "d1", none, none, none, none, none, none, none⟩

/-- A sample row lacking its postId. -/
def rowNoId : ImportedPostRow :=
  ⟨none, some "missing id", some "d1", some 3, none, none, none, none, none, none⟩

/-- The three-row sample submission with one row lacking postId. -/
def rows3 : List ImportedPostRow :=
  [rowA, rowNoId, rowB]

/-- C2 witness: importing three rows of which one lacks postId persists exactly
two snapshots and reports two, not three. -/
theorem saveImportedPosts_skip_count_witness :
    (saveImportedPosts pd0 false "" 0 (some "a.csv") rows3 emptyDb).2 =
      .ok 0 ((rows3.filter (claimAccept pd0)).length) ∧
    (rows3.filter (claimAccept pd0)).length = 2 ∧
    rows3.length = 3 ∧
    (saveImportedPosts pd0 false "" 0 (some "a.csv") rows3 emptyDb).1.snapshots.length = 2 := by
  have h := saveImportedPosts_skip_count pd0 false "" 0 (some "a.csv") rows3 emptyDb
    (by
      intro r hr
      simp only [rows3, List.mem_cons, List.not_mem_nil, or_false] at hr
      rcases hr with rfl | rfl | rfl
      · constructor
        · intro p hp
          rw [show rowA.postId = some "p1" from rfl] at hp
          cases hp
          decide
        · intro c hc
          rw [show rowA.createdAt = some "d1" from rfl] at hc
          cases hc
          decide
      · constructor
        · intro p hp
          rw [show rowNoId.postId = none from rfl] at hp
          cases hp
        · intro c hc
          rw [show rowNoId.createdAt = some "d1" from rfl] at hc
          cases hc
          decide
      · constructor
        · intro p hp
          rw [show rowB.postId = some "p2" from rfl] at hp
          cases hp
          decide
        · intro c hc
          rw [show rowB.createdAt = some "d1" from rfl] at hc
          cases hc
          decide)
  refine ⟨h.2.1, by decide, by decide, ?_⟩
  rw [h.2.2]
  decide

/-- The audit log after a recompute run: assuming the fresh-id invariant, the
prior log is untouched and one run is appended, STARTED then updated to FAILED
with the error text when the body throws, or to SUCCESS otherwise. -/
theorem recompute_runs (f : Bool) (e : String) (now : Int) (db : Db)
    (hfresh : ∀ rr ∈ db.recomputeRuns, rr.id ≠ db.nextRunId) :
    (recomputeAnalytics f e now db).1.recomputeRuns =
      db.recomputeRuns ++
        [if f then (⟨db.nextRunId, .FAILED, some e, now, some now⟩ : RunRec)
         else ⟨db.nextRunId, .SUCCESS, none, now, some now⟩] := by
  have hA : db.recomputeRuns.map (fun r =>
      if r.id = db.nextRunId then
        { id := r.id, status := RunStatus.FAILED, error_text := some e,
          started_at := r.started_at, ended_at := some now }
      else r) = db.recomputeRuns := by
    refine (List.map_congr_left ?_).trans (List.map_id _)
    intro rr hrr
    exact if_neg (hfresh rr hrr)
  have hB : db.recomputeRuns.map (fun r =>
      if r.id = db.nextRunId then
        { id := r.id, status := RunStatus.SUCCESS, error_text := r.error_text,
          started_at := r.started_at, ended_at := some now }
      else r) = db.recomputeRuns := by
    refine (List.map_congr_left ?_).trans (List.map_id _)
    intro rr hrr
    exact if_neg (hfresh rr hrr)
  cases f <;> simp [recomputeAnalytics, hA, hB]

/-- The audit log after the full import: the import pipeline before the
recompute step never touches the log, so it is the prior log plus the one run
of the recompute collaborator. -/
theorem saveImportedPosts_runs (pd : String → Option Int) (rf : Bool)
    (re : String) (now : Int) (fn : Option String) (rows : List ImportedPostRow)
    (db : Db) (hfresh : ∀ rr ∈ db.recomputeRuns, rr.id ≠ db.nextRunId) :
    (saveImportedPosts pd rf re now fn rows db).1.recomputeRuns =
      db.recomputeRuns ++
        [if rf then (⟨db.nextRunId, .FAILED, some re, now, some now⟩ : RunRec)
         else ⟨db.nextRunId, .SUCCESS, none, now, some now⟩] := by
  simp only [saveImportedPosts]
  rw [recompute_runs]
  · simp [uu_recomputeRuns, uu_nextRunId]
  · simp only [uu_recomputeRuns, uu_nextRunId]
    exact hfresh

/-- C9: a failing recompute collaborator is recorded in the audit log as a run
that transitions from STARTED to FAILED with its error text, while the import
call still returns success with the import identifier and every import write
(posts, snapshots, import record) equals the outcome of the same call with a
succeeding collaborator — nothing is rolled back or propagated. -/
theorem recompute_failure_isolated (pd : String → Option Int) (re : String)
    (now : Int) (fn : Option String) (rows : List ImportedPostRow) (db : Db)
    (hfresh : ∀ rr ∈ db.recomputeRuns, rr.id ≠ db.nextRunId) :
    (saveImportedPosts pd true re now fn rows db).2 =
      .ok db.nextImportId ((rows.filter (rowAccepted pd)).length) ∧
    (saveImportedPosts pd true re now fn rows db).1.recomputeRuns =
      db.recomputeRuns ++ [⟨db.nextRunId, RunStatus.FAILED, some re, now, some now⟩] ∧
    (saveImportedPosts pd true re now fn rows db).1.posts =
      (saveImportedPosts pd false re now fn rows db).1.posts ∧
    (saveImportedPosts pd true re now fn rows db).1.snapshots =
      (saveImportedPosts pd false re now fn rows db).1.snapshots ∧
    (saveImportedPosts pd true re now fn rows db).1.imports =
      (saveImportedPosts pd false re now fn rows db).1.imports := by
  obtain ⟨hpT, hsT, hiT, hrT⟩ := saveImportedPosts_components pd true re now fn rows db
  obtain ⟨hpF, hsF, hiF, _⟩ := saveImportedPosts_components pd false re now fn rows db
  refine ⟨hrT, ?_, ?_, ?_, ?_⟩
  · rw [saveImportedPosts_runs pd true re now fn rows db hfresh]
    simp
  · rw [hpT, hpF]
  · rw [hsT, hsF]
  · rw [hiT, hiF]

/-- C9 witness: with a failing collaborator on the empty database the import
still succeeds with the new import id, and the log holds one FAILED run with
the error text. -/
theorem recompute_failure_isolated_witness :
    (saveImportedPosts pd0 true "boom" 0 none [rowA] emptyDb).2 =
      .ok 0 (([rowA].filter (rowAccepted pd0)).length) ∧
    (saveImportedPosts pd0 true "boom" 0 none [rowA] emptyDb).1.recomputeRuns =
      [⟨0, RunStatus.FAILED, some "boom", 0, some 0⟩] := by
  have h := recompute_failure_isolated pd0 "boom" 0 none [rowA] emptyDb
    (by intro rr hrr; simp [emptyDb] at hrr)
  refine ⟨h.1, ?_⟩
  rw [h.2.1]
  rfl

/-- C10: a row with a present non-blank postId and a parsable createdAt gets
imported even when its text is null: the upserted post carries the empty text,
char count zero, word count one, no link flag, zero hashtag and mention counts
and the standard tag, and one snapshot is still persisted. -/
theorem null_text_import (pd : String → Option Int) (rf : Bool) (re : String)
    (now : Int) (fn : Option String) (db : Db) (row : ImportedPostRow)
    (p c : String) (t : Int)
    (hp : row.postId = some p) (hk : jsTrimStr p ≠ "")
    (hc : row.createdAt = some c) (hce : c ≠ "") (ht : pd c = some t)
    (htext : row.text = none) :
    (∃ q ∈ (saveImportedPosts pd rf re now fn [row] db).1.posts,
      q.x_post_id = jsTrimStr p) ∧
    (∀ q ∈ (saveImportedPosts pd rf re now fn [row] db).1.posts,
      q.x_post_id = jsTrimStr p →
        q.text = "" ∧ q.char_count = 0 ∧ q.word_count = 1 ∧ q.has_link = false ∧
        q.hashtag_count = 0 ∧ q.mention_count = 0 ∧ q.format_tag = "standard") ∧
    (saveImportedPosts pd rf re now fn [row] db).1.snapshots.length =
      db.snapshots.length + 1 := by
  obtain ⟨hposts, hsnaps, _, _⟩ := saveImportedPosts_components pd rf re now fn [row] db
  have hacc : rowAccepted pd row = true := by
    unfold rowAccepted
    rw [hp, hc]
    simp [hk, hce, ht]
  have hX : rowX row = jsTrimStr p := by
    unfold rowX
    rw [hp]
    rfl
  have htext' : row.text.getD "" = "" := by
    rw [htext]
    rfl
  have hpostsEq : (saveImportedPosts pd rf re now fn [row] db).1.posts =
      upsertPost db.posts (upsertDefaultUser db).2 (jsTrimStr p) "" (rowDate pd row) := by
    rw [hposts]
    simp only [List.foldl_cons, List.foldl_nil, postsStep, hacc, if_true, hX, htext']
  refine ⟨?_, ?_, ?_⟩
  · rw [hpostsEq]
    cases hany : db.posts.any (fun q => q.x_post_id == jsTrimStr p) with
    | false =>
      simp only [List.any_eq_false, beq_iff_eq] at hany
      rw [upsertPost_of_not_mem _ _ _ _ _ hany]
      exact ⟨newPostRec (upsertDefaultUser db).2 (jsTrimStr p) "" (rowDate pd row),
        List.mem_append_right _ (List.mem_singleton_self _), rfl⟩
    | true =>
      simp only [List.any_eq_true, beq_iff_eq] at hany
      obtain ⟨q0, hq0, hkey⟩ := hany
      rw [upsertPost_of_mem _ _ _ _ _ ⟨q0, hq0, hkey⟩]
      refine ⟨updatePostRec (jsTrimStr p) "" (rowDate pd row) q0,
        List.mem_map_of_mem _ hq0, ?_⟩
      rw [updatePostRec_key]
      exact hkey
  · rw [hpostsEq]
    cases hany : db.posts.any (fun q => q.x_post_id == jsTrimStr p) with
    | false =>
      simp only [List.any_eq_false, beq_iff_eq] at hany
      rw [upsertPost_of_not_mem _ _ _ _ _ hany]
      intro q hq hqkey
      rcases List.mem_append.mp hq with hin | hin
      · exact absurd hqkey (hany q hin)
      · rcases List.mem_singleton.mp hin with rfl
        exact ⟨rfl, rfl, rfl, rfl, rfl, rfl, rfl⟩
    | true =>
      simp only [List.any_eq_true, beq_iff_eq] at hany
      rw [upsertPost_of_mem _ _ _ _ _ hany]
      intro q hq hqkey
      rcases List.mem_map.mp hq with ⟨a, ha, rfl⟩
      by_cases hka : a.x_post_id = jsTrimStr p
      · obtain ⟨h1, _, h3, h4, h5, h6, h7, h8⟩ :=
          updatePostRec_fields (jsTrimStr p) "" (rowDate pd row) a hka
        exact ⟨h1, h3.trans rfl, h4.trans rfl, h5.trans rfl, h6.trans rfl,
          h7.trans rfl, h8.trans rfl⟩
      · rw [updatePostRec_of_ne _ _ _ a hka] at hqkey
        exact absurd hqkey hka
  · rw [hsnaps]
    simp [List.filter_cons, hacc]

/-- A sample row with a present postId and createdAt but null text. -/
def rowNullText : ImportedPostRow :=
  ⟨some "p9", none, some "d1", none, none, none, none, none, none, none⟩

/-- C10 witness: the null-text sample row is imported on the empty database
with empty text, the boundary word count of one, the standard tag, and one
persisted snapshot. -/
theorem null_text_import_witness :
    (∃ q ∈ (saveImportedPosts pd0 false "" 0 none [rowNullText] emptyDb).1.posts,
      q.x_post_id = jsTrimStr "p9") ∧
    (∀ q ∈ (saveImportedPosts pd0 false "" 0 none [rowNullText] emptyDb).1.posts,
      q.x_post_id = jsTrimStr "p9" →
        q.text = "" ∧ q.char_count = 0 ∧ q.word_count = 1 ∧ q.has_link = false ∧
        q.hashtag_count = 0 ∧ q.mention_count = 0 ∧ q.format_tag = "standard") ∧
    (saveImportedPosts pd0 false "" 0 none [rowNullText] emptyDb).1.snapshots.length =
      emptyDb.snapshots.length + 1 :=
  null_text_import pd0 false "" 0 none emptyDb rowNullText "p9" "d1" 100
    rfl (by decide) rfl (by decide) rfl rfl

/-- C3: importing a row and re-importing a row with the identical postId leaves
exactly one Post record keyed by that external id, whose text and derived
fields are those of the later import (upsert, last write wins), while two
MetricsSnapshot records accumulate for that post, one per import. -/
theorem reimport_single_post (pd pd' : String → Option Int) (rf rf' : Bool)
    (re re' : String) (now now' : Int) (fn fn' : Option String) (db : Db)
    (r r' : ImportedPostRow) (p c c' : String) (t t' : Int)
    (hp : r.postId = some p) (hp' : r'.postId = some p)
    (hk : jsTrimStr p ≠ "")
    (hc : r.createdAt = some c) (hc' : r'.createdAt = some c')
    (hce : c ≠ "") (hce' : c' ≠ "")
    (ht : pd c = some t) (ht' : pd' c' = some t')
    (hdb : ∀ q ∈ db.posts, q.x_post_id ≠ jsTrimStr p) :
    (((saveImportedPosts pd' rf' re' now' fn' [r']
        (saveImportedPosts pd rf re now fn [r] db).1).1.posts.filter
      (fun q => q.x_post_id == jsTrimStr p)).length = 1) ∧
    (∀ q ∈ (saveImportedPosts pd' rf' re' now' fn' [r']
        (saveImportedPosts pd rf re now fn [r] db).1).1.posts,
      q.x_post_id = jsTrimStr p →
        q.text = r'.text.getD "" ∧ q.created_at = t' ∧
        q.char_count = (r'.text.getD "").length ∧
        q.word_count = jsWordCount (r'.text.getD "") ∧
        q.has_link = strIncludes (r'.text.getD "") "http" ∧
        q.hashtag_count = countCharIn (r'.text.getD "") '#' ∧
        q.mention_count = countCharIn (r'.text.getD "") '@' ∧
        q.format_tag = classifyFormat (r'.text.getD "")) ∧
    (((saveImportedPosts pd' rf' re' now' fn' [r']
        (saveImportedPosts pd rf re now fn [r] db).1).1.snapshots.filter
      (fun s => s.post_id == jsTrimStr p)).length =
      (db.snapshots.filter (fun s => s.post_id == jsTrimStr p)).length + 2) := by
  obtain ⟨hposts1, hsnaps1, _, _⟩ := saveImportedPosts_components pd rf re now fn [r] db
  have hacc1 : rowAccepted pd r = true := by
    unfold rowAccepted
    rw [hp, hc]
    simp [hk, hce, ht]
  have hX1 : rowX r = jsTrimStr p := by
    unfold rowX
    rw [hp]
    rfl
  have hpostsEq1 : (saveImportedPosts pd rf re now fn [r] db).1.posts =
      db.posts ++ [newPostRec (upsertDefaultUser db).2 (jsTrimStr p)
        (r.text.getD "") (rowDate pd r)] := by
    rw [hposts1]
    simp only [List.foldl_cons, List.foldl_nil, postsStep, hacc1, if_true, hX1]
    rw [upsertPost_of_not_mem _ _ _ _ _ hdb]
  have hsnapsEq1 : (saveImportedPosts pd rf re now fn [r] db).1.snapshots =
      db.snapshots ++ [mkSnapshot db.nextImportId now (jsTrimStr p) r] := by
    rw [hsnaps1]
    simp [List.filter_cons, hacc1, hX1]
  obtain ⟨hposts2, hsnaps2, _, _⟩ := saveImportedPosts_components pd' rf' re' now' fn' [r']
    (saveImportedPosts pd rf re now fn [r] db).1
  have hacc2 : rowAccepted pd' r' = true := by
    unfold rowAccepted
    rw [hp', hc']
    simp [hk, hce', ht']
  have hX2 : rowX r' = jsTrimStr p := by
    unfold rowX
    rw [hp']
    rfl
  have hmem : ∃ q ∈ (saveImportedPosts pd rf re now fn [r] db).1.posts,
      q.x_post_id = jsTrimStr p := by
    rw [hpostsEq1]
    exact ⟨newPostRec (upsertDefaultUser db).2 (jsTrimStr p)
        (r.text.getD "") (rowDate pd r),
      List.mem_append_right _ (List.mem_singleton_self _), rfl⟩
  have hmapOld : db.posts.map (updatePostRec (jsTrimStr p) (r'.text.getD "")
      (rowDate pd' r')) = db.posts :=
    (List.map_congr_left (fun q hq =>
      updatePostRec_of_ne _ _ _ q (hdb q hq))).trans (List.map_id _)
  have hpostsEq2 : (saveImportedPosts pd' rf' re' now' fn' [r']
      (saveImportedPosts pd rf re now fn [r] db).1).1.posts =
      db.posts ++ [updatePostRec (jsTrimStr p) (r'.text.getD "") (rowDate pd' r')
        (newPostRec (upsertDefaultUser db).2 (jsTrimStr p)
          (r.text.getD "") (rowDate pd r))] := by
    rw [hposts2]
    simp only [List.foldl_cons, List.foldl_nil, postsStep, hacc2, if_true, hX2]
    rw [upsertPost_of_mem _ _ _ _ _ hmem, hpostsEq1, List.map_append, hmapOld]
    rfl
  have hrowdate2 : rowDate pd' r' = t' := by
    unfold rowDate
    rw [hc']
    simp [ht']
  have hkeyU : (updatePostRec (jsTrimStr p) (r'.text.getD "") (rowDate pd' r')
      (newPostRec (upsertDefaultUser db).2 (jsTrimStr p)
        (r.text.getD "") (rowDate pd r))).x_post_id = jsTrimStr p := by
    rw [updatePostRec_key]
    rfl
  refine ⟨?_, ?_, ?_⟩
  · rw [hpostsEq2, List.filter_append]
    have hnil : db.posts.filter (fun q => q.x_post_id == jsTrimStr p) = [] := by
      apply List.filter_eq_nil_iff.mpr
      intro q hq
      simpa using hdb q hq
    rw [hnil]
    simp [hkeyU]
  · rw [hpostsEq2]
    intro q hq hqkey
    rcases List.mem_append.mp hq with hin | hin
    · exact absurd hqkey (hdb q hin)
    · rcases List.mem_singleton.mp hin with rfl
      obtain ⟨h1, h2, h3, h4, h5, h6, h7, h8⟩ :=
        updatePostRec_fields (jsTrimStr p) (r'.text.getD "") (rowDate pd' r')
          (newPostRec (upsertDefaultUser db).2 (jsTrimStr p)
            (r.text.getD "") (rowDate pd r)) rfl
      exact ⟨h1, h2.trans hrowdate2, h3.trans rfl, h4.trans rfl, h5.trans rfl,
        h6.trans rfl, h7.trans rfl, h8.trans rfl⟩
  · have hsnapsEq2 : (saveImportedPosts pd' rf' re' now' fn' [r']
        (saveImportedPosts pd rf re now fn [r] db).1).1.snapshots =
        (saveImportedPosts pd rf re now fn [r] db).1.snapshots ++
          [mkSnapshot (saveImportedPosts pd rf re now fn [r] db).1.nextImportId
            now' (jsTrimStr p) r'] := by
      rw [hsnaps2]
      simp [List.filter_cons, hacc2, hX2]
    rw [hsnapsEq2, hsnapsEq1, List.filter_append, List.filter_append]
    simp [List.filter_cons, mkSnapshot]

/-- C3 witness: importing the sample row then re-importing a row with the same
external id on the empty database leaves one post with that key and two
snapshots for it. -/
theorem reimport_single_post_witness :
    (((saveImportedPosts pd0 false "" 5 none [rowA2]
        (saveImportedPosts pd0 false "" 0 none [rowA] emptyDb).1).1.posts.filter
      (fun q => q.x_post_id == jsTrimStr "p1")).length = 1) ∧
    (((saveImportedPosts pd0 false "" 5 none [rowA2]
        (saveImportedPosts pd0 false "" 0 none [rowA] emptyDb).1).1.snapshots.filter
      (fun s => s.post_id == jsTrimStr "p1")).length =
      (emptyDb.snapshots.filter (fun s => s.post_id == jsTrimStr "p1")).length + 2) := by
  have h := reimport_single_post pd0 pd0 false false "" "" 0 5 none none emptyDb
    rowA rowA2 "p1" "d1" "d2" 100 200 rfl rfl (by decide) rfl rfl (by decide)
    (by decide) rfl rfl (by intro q hq; simp [emptyDb] at hq)
  exact ⟨h.1, h.2.2⟩
